/-
  Verification development for the BlyFast native decoders
  (src/main/native: json_parser.c, blyfastnative.c, form_parser.c,
  http_headers.c, utils.c).

  The C code is shallowly embedded over byte lists (`List Nat`, one
  entry per `char`, values 0..255).  Cursor pointers become "remaining
  input" lists; every parsing function returns its result together with
  the final cursor position, because the C code mutates the cursor in
  place and callers keep using it even after a NULL return.  A C `NULL`
  jobject is `Option.none`; the JSON parser uses `NULL` both for Java
  `null` and for parse failure, and the embedding preserves that
  conflation.  Recursion is driven by an explicit fuel argument so that
  every definition is structural and kernel-reducible; the fuel picked
  by the entry-point wrappers is always sufficient for the concrete
  inputs evaluated below.

  Two JSON parser families exist in the repository: `json_parser.c`
  (embedded in namespace `JP`) and the older static copies inside
  `blyfastnative.c` (namespace `BN`) which are the ones actually called
  by the JNI entry point `nativeParseJson`.  They differ in string and
  number handling and are embedded separately.
-/
import Mathlib

/-- Bytes of an ASCII string literal, one `Nat` per character. -/
def ascii (s : String) : List Nat := s.toList.map fun c => c.toNat

/-- Whitespace test used by both `skipWhitespace` loops
(`' '`, `'\t'`, `'\n'`, `'\r'`). -/
def isWs (c : Nat) : Bool := decide (c = 32 ∨ c = 9 ∨ c = 10 ∨ c = 13)

/-- `skipWhitespace` from json_parser.c / blyfastnative.c: advance the
cursor while the head is whitespace. -/
def skipWhitespace (s : List Nat) : List Nat := s.dropWhile isWs

/-- ASCII decimal digit test (`c >= '0' && c <= '9'`). -/
def isDigit (c : Nat) : Bool := decide (48 ≤ c ∧ c ≤ 57)

/-- Horizontal whitespace (`' '` or `'\t'`), used by the header parser. -/
def isHws (c : Nat) : Bool := decide (c = 32 ∨ c = 9)

/-- `hexCharToInt` from utils.c: value of a hex digit, `-1` otherwise. -/
def hexCharToInt (c : Nat) : Int :=
  if 48 ≤ c ∧ c ≤ 57 then (c : Int) - 48
  else if 65 ≤ c ∧ c ≤ 70 then (c : Int) - 65 + 10
  else if 97 ≤ c ∧ c ≤ 102 then (c : Int) - 97 + 10
  else -1

/-- A C string read out of a byte buffer stops at the first NUL byte
(`NewStringUTF`, `strcasecmp` are NUL-terminated). -/
def cstr (l : List Nat) : List Nat := l.takeWhile fun c => c ≠ 0

/-- ASCII lower-casing of one byte (`tolower` on the ASCII range). -/
def lowerByte (c : Nat) : Nat := if 65 ≤ c ∧ c ≤ 90 then c + 32 else c

/-- `strcasecmp(a, b) == 0`: the two NUL-terminated strings agree up to
ASCII case. -/
def nameEqCI (a b : List Nat) : Bool :=
  decide ((cstr a).map lowerByte = (cstr b).map lowerByte)

/-- Value of a decimal digit string. -/
def decDigitsVal (ds : List Nat) : Nat := ds.foldl (fun a c => a * 10 + (c - 48)) 0

/-- `strtoll(numStr, NULL, 10)` (and `atoll`) on a literal shaped
`[-|+] digits …`: decimal value of the leading digits, saturated at the
int64 bounds on overflow (glibc `strtoll` saturates; `atoll` differs
only on overflow, which no claim exercises). -/
def strtollDec (lit : List Nat) : Int :=
  let p := match lit with
    | 45 :: t => (true, t)
    | 43 :: t => (false, t)
    | _ => (false, lit)
  let n : Int := decDigitsVal (p.2.takeWhile isDigit)
  let v : Int := if p.1 then -n else n
  max (min v (2 ^ 63 - 1)) (-(2 ^ 63))

/-- `strtod(numStr, NULL)` (and `atof`) on a JSON-shaped literal
`[-] digits [. digits] [e|E [sign] digits]`, modelled as the exact
rational value of the decimal (the C call rounds this rational to the
nearest double; every literal a claim evaluates is exactly
representable). -/
def strtodRat (lit : List Nat) : Rat :=
  let p := match lit with
    | 45 :: t => (true, t)
    | _ => (false, lit)
  let ds := p.2.takeWhile isDigit
  let r2 := p.2.dropWhile isDigit
  let q := match r2 with
    | 46 :: t => (t.takeWhile isDigit, t.dropWhile isDigit)
    | _ => ([], r2)
  let e := match q.2 with
    | c :: t =>
      if c = 101 ∨ c = 69 then
        match t with
        | 43 :: u => (true, decDigitsVal (u.takeWhile isDigit))
        | 45 :: u => (false, decDigitsVal (u.takeWhile isDigit))
        | _ => (true, decDigitsVal (t.takeWhile isDigit))
      else (true, 0)
    | [] => (true, 0)
  let mant : Int := decDigitsVal (ds ++ q.1)
  let num : Int := (if p.1 then -mant else mant) * (if e.1 then 10 ^ e.2 else 1)
  let den : Nat := 10 ^ q.1.length * (if e.1 then 1 else 10 ^ e.2)
  mkRat num den

/-- The tagged JSON value tree produced by the parsers.  Java `null`
(which the C code represents as the NULL jobject, conflated with parse
failure) appears only as `Option.none` in the element positions of
arrays and objects. -/
inductive JValue where
  | jbool : Bool → JValue
  | jint : Int → JValue
  | jfloat : Rat → JValue
  | jstr : List Nat → JValue
  | jarr : List (Option JValue) → JValue
  | jobj : List (List Nat × Option JValue) → JValue

/-- `HashMap.put`: replace the value of an existing equal key, else
append the new entry (insertion order kept for the embedding; the
claims never depend on HashMap iteration order). -/
def putKV (m : List (List Nat × Option JValue)) (k : List Nat) (v : Option JValue) :
    List (List Nat × Option JValue) :=
  match m with
  | [] => [(k, v)]
  | (k0, v0) :: t => if k0 = k then (k0, v) :: t else (k0, v0) :: putKV t k v

/-- The optional leading minus of a number literal
(`if (**cursor == '-') (*cursor)++`): the consumed sign bytes and the
remaining input. -/
def numSign (s : List Nat) : List Nat × List Nat :=
  match s with
  | 45 :: t => ([45], t)
  | _ => ([], s)

/-- The optional sign after an exponent marker
(`if (**cursor == '+' || **cursor == '-') (*cursor)++`). -/
def expSign (t : List Nat) : List Nat × List Nat :=
  match t with
  | 43 :: u => ([43], u)
  | 45 :: u => ([45], u)
  | _ => ([], t)

/-
  ===================================================================
  json_parser.c  (namespace JP)
  ===================================================================
-/

/-- First pass of `parseJsonString` (json_parser.c:319-334): scan from
the byte after the opening quote for the closing `'"'`, skipping the
byte after every backslash and recording whether any escape occurred.
Returns `(index of the closing quote, escapes seen)`, or `none` when
the input ends first. -/
def JP.scanStringEnd : List Nat → Bool → Option (Nat × Bool)
  | [], _ => none
  | 34 :: _, esc => some (0, esc)
  | 92 :: t, _ =>
    match t with
    | [] => none
    | _ :: u => (JP.scanStringEnd u true).map fun p => (p.1 + 2, p.2)
  | _ :: t, esc => (JP.scanStringEnd t esc).map fun p => (p.1 + 1, p.2)

/-- The 4 hex digits of a `\uXXXX` escape (json_parser.c:392-399):
fails if any of the four bytes is not a hex digit. -/
def JP.hex4 (l : List Nat) : Option Nat :=
  match l with
  | [a, b, c, d] =>
    if hexCharToInt a < 0 ∨ hexCharToInt b < 0 ∨ hexCharToInt c < 0 ∨ hexCharToInt d < 0
    then none
    else some ((((hexCharToInt a * 16 + hexCharToInt b) * 16 + hexCharToInt c) * 16
      + hexCharToInt d)).toNat
  | _ => none

/-- 4-byte UTF-8 encoding written for a surrogate-pair code point
(json_parser.c:444-447). -/
def JP.utf8x4 (cp : Nat) : List Nat :=
  [240 ||| (cp >>> 18), 128 ||| ((cp >>> 12) &&& 63), 128 ||| ((cp >>> 6) &&& 63),
   128 ||| (cp &&& 63)]

/-- Second pass of `parseJsonString` (json_parser.c:362-470): decode
escapes into the output buffer `acc`.  Returns `(some buffer, rest)` on
the closing quote, `(none, cursor position)` on failure.  Faithful to
the surrogate-pair slip: the branch does `*cursor += 11` and `break`,
but `break` leaves only the `switch`, so the loop's `(*cursor)++` still
runs and 12 bytes are consumed from the `'u'` — one byte beyond the
second escape. -/
def JP.processEsc : Nat → List Nat → List Nat → Option (List Nat) × List Nat
  | 0, s, _ => (none, s)
  | fuel + 1, s, acc =>
    match s with
    | [] => (none, [])
    | 34 :: rest => (some acc, rest)
    | 92 :: rest =>
      match rest with
      | [] => (none, [])
      | c :: rest2 =>
        if c = 34 ∨ c = 92 ∨ c = 47 then JP.processEsc fuel rest2 (acc ++ [c])
        else if c = 98 then JP.processEsc fuel rest2 (acc ++ [8])
        else if c = 102 then JP.processEsc fuel rest2 (acc ++ [12])
        else if c = 110 then JP.processEsc fuel rest2 (acc ++ [10])
        else if c = 114 then JP.processEsc fuel rest2 (acc ++ [13])
        else if c = 116 then JP.processEsc fuel rest2 (acc ++ [9])
        else if c = 117 then
          -- `if (*cursor + 4 >= end)`: fewer than 4 bytes after the 'u'
          if rest2.length < 4 then (none, 117 :: rest2)
          else
            match JP.hex4 (rest2.take 4) with
            | none => (none, 117 :: rest2)
            | some hexValue =>
              if hexValue < 128 then
                JP.processEsc fuel (rest2.drop 4) (acc ++ [hexValue])
              else if hexValue < 2048 then
                JP.processEsc fuel (rest2.drop 4)
                  (acc ++ [192 ||| (hexValue >>> 6), 128 ||| (hexValue &&& 63)])
              else if hexValue < 55296 ∨ 57344 ≤ hexValue then
                JP.processEsc fuel (rest2.drop 4)
                  (acc ++ [224 ||| (hexValue >>> 12), 128 ||| ((hexValue >>> 6) &&& 63),
                    128 ||| (hexValue &&& 63)])
              else if hexValue < 56320 then
                -- high surrogate: `if (*cursor + 9 >= end || (*cursor)[5] != '\\' ||
                -- (*cursor)[6] != 'u')`
                if rest2.length ≤ 8 then (none, 117 :: rest2)
                else if rest2.get? 4 ≠ some 92 ∨ rest2.get? 5 ≠ some 117 then
                  (none, 117 :: rest2)
                else
                  match JP.hex4 ((rest2.drop 6).take 4) with
                  | none => (none, 117 :: rest2)
                  | some low =>
                    if low < 56320 ∨ 57344 ≤ low then (none, 117 :: rest2)
                    else
                      JP.processEsc fuel (rest2.drop 11)
                        (acc ++ JP.utf8x4 (65536 + ((hexValue - 55296) <<< 10) + (low - 56320)))
              else (none, 117 :: rest2)
        else (none, c :: rest2)
    | c :: rest => JP.processEsc fuel rest (acc ++ [c])

/-- `parseJsonString` from json_parser.c:309-490, returning the raw
byte string.  Fast path: no escapes, the `strLen` bytes before the
closing quote are copied.  Escape path: second pass; `NewStringUTF` on
the decoded buffer stops at the first NUL byte, hence the `cstr`. -/
def JP.parseJsonStringRaw (s : List Nat) : Option (List Nat) × List Nat :=
  let body := s.drop 1
  match JP.scanStringEnd body false with
  | none => (none, body)
  | some (n, esc) =>
    if esc then
      match JP.processEsc (body.length + 1) body [] with
      | (none, rest) => (none, rest)
      | (some buf, rest) => (some (cstr buf), rest)
    else (some (body.take n), body.drop (n + 1))

/-- Tail of `parseJsonNumber` (json_parser.c:529-588): optional
exponent, then materialize the literal.  `lit` is the part of the
literal consumed so far, `isFP` whether a `.` was seen. -/
def JP.jsonNumFinish (lit : List Nat) (isFP : Bool) (rest : List Nat) :
    Option JValue × List Nat :=
  if lit.length = 0 ∨ lit.length > 64 then (none, rest)  -- MAX_JSON_NUMBER_LEN
  else
    (some (if isFP then JValue.jfloat (strtodRat lit) else JValue.jint (strtollDec lit)),
     rest)

/-- Exponent part of `parseJsonNumber` (json_parser.c:529-548). -/
def JP.jsonNumExp (lit : List Nat) (isFP : Bool) (s : List Nat) : Option JValue × List Nat :=
  match s with
  | c :: t =>
    if c = 101 ∨ c = 69 then
      let p := expSign t
      let eds := p.2.takeWhile isDigit
      let t2 := p.2.dropWhile isDigit
      if eds.length = 0 then (none, t2)
      else JP.jsonNumFinish (lit ++ c :: (p.1 ++ eds)) true t2
    else JP.jsonNumFinish lit isFP s
  | [] => JP.jsonNumFinish lit isFP []

/-- `parseJsonNumber` from json_parser.c:493-588: optional `-`, one or
more digits (else NULL), optional `.` with one or more digits (else
NULL), optional exponent; literals over 64 bytes rejected; `.`/exponent
selects Double (`strtod`), otherwise Long (`strtoll`). -/
def JP.parseJsonNumber (s : List Nat) : Option JValue × List Nat :=
  let p := numSign s
  let ds := p.2.takeWhile isDigit
  let s2 := p.2.dropWhile isDigit
  if ds.length = 0 then (none, s2)
  else
    match s2 with
    | 46 :: t =>
      let fds := t.takeWhile isDigit
      let s3 := t.dropWhile isDigit
      if fds.length = 0 then (none, s3)
      else JP.jsonNumExp (p.1 ++ ds ++ 46 :: fds) true s3
    | _ => JP.jsonNumExp (p.1 ++ ds) false s2

/-- Key/value loop of `parseJsonObject` (json_parser.c:173-236).
`pv` parses one JSON value (the mutual call back into
`parseJsonValue`).  A NULL value is stored like any other — JSON null
and a failed element are indistinguishable. -/
def JP.objLoop (pv : List Nat → Option JValue × List Nat) :
    Nat → List Nat → List (List Nat × Option JValue) → Option JValue × List Nat
  | 0, s, _ => (none, s)
  | fuel + 1, s, acc =>
    match s with
    | [] => (none, [])
    | _ =>
      let s1 := skipWhitespace s
      match s1 with
      | [] => (none, [])  -- `**cursor` reads the buffer's NUL terminator, which is not '"'
      | c :: _ =>
        if c ≠ 34 then (none, s1)
        else
          match JP.parseJsonStringRaw s1 with
          | (none, r) => (none, r)
          | (some k, r) =>
            let s2 := skipWhitespace r
            match s2 with
            | 58 :: s3 =>
              let pr := pv s3
              let acc2 := putKV acc k pr.1
              let s5 := skipWhitespace pr.2
              match s5 with
              | [] => (none, [])
              | 125 :: rest => (some (JValue.jobj acc2), rest)
              | 44 :: rest => JP.objLoop pv fuel rest acc2
              | _ => (none, s5)
            | _ => (none, s2)

/-- `parseJsonObject` from json_parser.c:146-240: skip `{`, accept an
immediate `}` as the empty object, else run the key/value loop. -/
def JP.parseJsonObject (pv : List Nat → Option JValue × List Nat) (s : List Nat) :
    Option JValue × List Nat :=
  let s1 := skipWhitespace (s.drop 1)
  match s1 with
  | 125 :: rest => (some (JValue.jobj []), rest)
  | _ => JP.objLoop pv (s1.length + 1) s1 []

/-- Element loop of `parseJsonArray` (json_parser.c:270-302).  The
value returned by `pv` is appended even when it is NULL ("for null
values, we still need to add them to maintain array indices"). -/
def JP.arrLoop (pv : List Nat → Option JValue × List Nat) :
    Nat → List Nat → List (Option JValue) → Option JValue × List Nat
  | 0, s, _ => (none, s)
  | fuel + 1, s, acc =>
    match s with
    | [] => (none, [])
    | _ =>
      let pr := pv s
      let acc2 := acc ++ [pr.1]
      let s3 := skipWhitespace pr.2
      match s3 with
      | [] => (none, [])
      | 93 :: rest => (some (JValue.jarr acc2), rest)
      | 44 :: rest => JP.arrLoop pv fuel rest acc2
      | _ => (none, s3)

/-- `parseJsonArray` from json_parser.c:243-306: skip `[`, accept an
immediate `]` as the empty array, else run the element loop. -/
def JP.parseJsonArray (pv : List Nat → Option JValue × List Nat) (s : List Nat) :
    Option JValue × List Nat :=
  let s1 := skipWhitespace (s.drop 1)
  match s1 with
  | 93 :: rest => (some (JValue.jarr []), rest)
  | _ => JP.arrLoop pv (s1.length + 1) s1 []

/-- `parseJsonValue` from json_parser.c:76-143: skip whitespace and
dispatch on the first byte.  `none` is simultaneously parse failure and
a successfully parsed JSON `null` (the C function returns the NULL
jobject for both).  Fuel bounds the nesting depth of the recursive
descent and is never exhausted by the wrappers below. -/
def JP.parseJsonValue : Nat → List Nat → Option JValue × List Nat
  | 0, s => (none, s)
  | fuel + 1, s =>
    let s1 := skipWhitespace s
    match s1 with
    | [] => (none, [])
    | c :: _ =>
      if c = 123 then JP.parseJsonObject (JP.parseJsonValue fuel) s1
      else if c = 91 then JP.parseJsonArray (JP.parseJsonValue fuel) s1
      else if c = 34 then
        let pr := JP.parseJsonStringRaw s1
        (pr.1.map JValue.jstr, pr.2)
      else if c = 116 then
        if s1.take 4 = [116, 114, 117, 101] then (some (JValue.jbool true), s1.drop 4)
        else (none, s1)
      else if c = 102 then
        if s1.take 5 = [102, 97, 108, 115, 101] then (some (JValue.jbool false), s1.drop 5)
        else (none, s1)
      else if c = 110 then
        if s1.take 4 = [110, 117, 108, 108] then (none, s1.drop 4)
        else (none, s1)
      else if c = 45 ∨ isDigit c then JP.parseJsonNumber s1
      else (none, s1)

/-- Top-level parse with the json_parser.c family: run `parseJsonValue`
on the whole buffer.  The pair keeps the final cursor so trailing-input
behaviour is observable. -/
def JP.parseJson (s : List Nat) : Option JValue × List Nat :=
  JP.parseJsonValue (s.length + 1) s

/-
  ===================================================================
  blyfastnative.c static parser family  (namespace BN)
  This is the family actually reached from the JNI entry point
  `Java_com_blyfast_nativeopt_NativeOptimizer_nativeParseJson`.
  ===================================================================
-/

/-- `sscanf(hexStr, "%x", &hexValue)` on the 4-byte chunk copied out of
a `\uXXXX` escape (blyfastnative.c:425-434): skip leading whitespace,
then read a maximal run of hex digits; fails (returns 0 conversions)
when no digit follows. -/
def BN.sscanfHex (l : List Nat) : Option Nat :=
  let t := l.dropWhile isWs
  let hs := t.takeWhile fun c => 0 ≤ hexCharToInt c
  if hs.length = 0 then none
  else some (hs.foldl (fun a c => a * 16 + (hexCharToInt c).toNat) 0)

/-- Second pass of the static `parseJsonString`
(blyfastnative.c:399-470): like the json_parser.c pass but without any
surrogate handling — every `\uXXXX` above 0x7FF (surrogates included)
is written as 3-byte UTF-8 — and with `sscanf`-style hex reading. -/
def BN.processEsc : Nat → List Nat → List Nat → Option (List Nat) × List Nat
  | 0, s, _ => (none, s)
  | fuel + 1, s, acc =>
    match s with
    | [] => (none, [])
    | 34 :: rest => (some acc, rest)
    | 92 :: rest =>
      match rest with
      | [] => (none, [])
      | c :: rest2 =>
        if c = 34 ∨ c = 92 ∨ c = 47 then BN.processEsc fuel rest2 (acc ++ [c])
        else if c = 98 then BN.processEsc fuel rest2 (acc ++ [8])
        else if c = 102 then BN.processEsc fuel rest2 (acc ++ [12])
        else if c = 110 then BN.processEsc fuel rest2 (acc ++ [10])
        else if c = 114 then BN.processEsc fuel rest2 (acc ++ [13])
        else if c = 116 then BN.processEsc fuel rest2 (acc ++ [9])
        else if c = 117 then
          if rest2.length < 4 then (none, 117 :: rest2)
          else
            match BN.sscanfHex (rest2.take 4) with
            | none => (none, 117 :: rest2)
            | some hexValue =>
              if hexValue < 128 then
                BN.processEsc fuel (rest2.drop 4) (acc ++ [hexValue])
              else if hexValue < 2048 then
                BN.processEsc fuel (rest2.drop 4)
                  (acc ++ [192 ||| (hexValue >>> 6), 128 ||| (hexValue &&& 63)])
              else
                BN.processEsc fuel (rest2.drop 4)
                  (acc ++ [224 ||| (hexValue >>> 12), 128 ||| ((hexValue >>> 6) &&& 63),
                    128 ||| (hexValue &&& 63)])
        else (none, c :: rest2)
    | c :: rest => BN.processEsc fuel rest (acc ++ [c])

/-- The static `parseJsonString` from blyfastnative.c:359-470.  The
fast path calls `NewStringUTF(env, start)` on an interior pointer of
the NUL-terminated input buffer, so the produced string runs from the
byte after the opening quote all the way to the END of the input, not
just to the closing quote (inputs are modelled without interior NUL
bytes, as `GetStringUTFChars` never produces a raw 0 byte). -/
def BN.parseJsonStringRaw (s : List Nat) : Option (List Nat) × List Nat :=
  let body := s.drop 1
  match JP.scanStringEnd body false with
  | none => (none, body)
  | some (n, esc) =>
    if esc then
      match BN.processEsc (body.length + 1) body [] with
      | (none, rest) => (none, rest)
      | (some buf, rest) => (some (cstr buf), rest)
    else (some body, body.drop (n + 1))

/-- Tail of the static `parseJsonNumber` (blyfastnative.c:520-560):
no digit-presence checks and no length cap; `atof`/`atoll` convert. -/
def BN.numFinish (lit : List Nat) (isFP : Bool) (rest : List Nat) :
    Option JValue × List Nat :=
  (some (if isFP then JValue.jfloat (strtodRat lit) else JValue.jint (strtollDec lit)),
   rest)

/-- Exponent part of the static `parseJsonNumber`
(blyfastnative.c:516-532). -/
def BN.numExp (lit : List Nat) (isFP : Bool) (s : List Nat) : Option JValue × List Nat :=
  match s with
  | c :: t =>
    if c = 101 ∨ c = 69 then
      let p := expSign t
      let eds := p.2.takeWhile isDigit
      let t2 := p.2.dropWhile isDigit
      BN.numFinish (lit ++ c :: (p.1 ++ eds)) true t2
    else BN.numFinish lit isFP s
  | [] => BN.numFinish lit isFP []

/-- The static `parseJsonNumber` from blyfastnative.c:486-560: same
scan as the json_parser.c version but with no `hasDigits` /
`hasDecimalDigits` / `hasExponentDigits` checks and no length cap. -/
def BN.parseJsonNumber (s : List Nat) : Option JValue × List Nat :=
  let p := numSign s
  let ds := p.2.takeWhile isDigit
  let s2 := p.2.dropWhile isDigit
  match s2 with
  | 46 :: t =>
    let fds := t.takeWhile isDigit
    let s3 := t.dropWhile isDigit
    BN.numExp (p.1 ++ ds ++ 46 :: fds) true s3
  | _ => BN.numExp (p.1 ++ ds) false s2

/-- Key/value loop of the static `parseJsonObject`
(blyfastnative.c:246-296); behaviourally identical to the json_parser.c
loop (its `break` on a non-quote key falls through to `return NULL`). -/
def BN.objLoop (pv : List Nat → Option JValue × List Nat) :
    Nat → List Nat → List (List Nat × Option JValue) → Option JValue × List Nat
  | 0, s, _ => (none, s)
  | fuel + 1, s, acc =>
    match s with
    | [] => (none, [])
    | _ =>
      let s1 := skipWhitespace s
      match s1 with
      | [] => (none, [])
      | c :: _ =>
        if c ≠ 34 then (none, s1)
        else
          match BN.parseJsonStringRaw s1 with
          | (none, r) => (none, r)
          | (some k, r) =>
            let s2 := skipWhitespace r
            match s2 with
            | 58 :: s3 =>
              let pr := pv s3
              let acc2 := putKV acc k pr.1
              let s5 := skipWhitespace pr.2
              match s5 with
              | [] => (none, [])
              | 125 :: rest => (some (JValue.jobj acc2), rest)
              | 44 :: rest => BN.objLoop pv fuel rest acc2
              | _ => (none, s5)
            | _ => (none, s2)

/-- The static `parseJsonObject` from blyfastnative.c:220-298. -/
def BN.parseJsonObject (pv : List Nat → Option JValue × List Nat) (s : List Nat) :
    Option JValue × List Nat :=
  let s1 := skipWhitespace (s.drop 1)
  match s1 with
  | 125 :: rest => (some (JValue.jobj []), rest)
  | _ => BN.objLoop pv (s1.length + 1) s1 []

/-- Element loop of the static `parseJsonArray`
(blyfastnative.c:326-356). -/
def BN.arrLoop (pv : List Nat → Option JValue × List Nat) :
    Nat → List Nat → List (Option JValue) → Option JValue × List Nat
  | 0, s, _ => (none, s)
  | fuel + 1, s, acc =>
    match s with
    | [] => (none, [])
    | _ =>
      let pr := pv s
      let acc2 := acc ++ [pr.1]
      let s3 := skipWhitespace pr.2
      match s3 with
      | [] => (none, [])
      | 93 :: rest => (some (JValue.jarr acc2), rest)
      | 44 :: rest => BN.arrLoop pv fuel rest acc2
      | _ => (none, s3)

/-- The static `parseJsonArray` from blyfastnative.c:301-356. -/
def BN.parseJsonArray (pv : List Nat → Option JValue × List Nat) (s : List Nat) :
    Option JValue × List Nat :=
  let s1 := skipWhitespace (s.drop 1)
  match s1 with
  | 93 :: rest => (some (JValue.jarr []), rest)
  | _ => BN.arrLoop pv (s1.length + 1) s1 []

/-- The static `parseJsonValue` from blyfastnative.c:157-217: same
dispatch as the json_parser.c version (a failed `true`/`false`/`null`
literal match falls through to the final `return NULL` with the cursor
unmoved). -/
def BN.parseJsonValue : Nat → List Nat → Option JValue × List Nat
  | 0, s => (none, s)
  | fuel + 1, s =>
    let s1 := skipWhitespace s
    match s1 with
    | [] => (none, [])
    | c :: _ =>
      if c = 123 then BN.parseJsonObject (BN.parseJsonValue fuel) s1
      else if c = 91 then BN.parseJsonArray (BN.parseJsonValue fuel) s1
      else if c = 34 then
        let pr := BN.parseJsonStringRaw s1
        (pr.1.map JValue.jstr, pr.2)
      else if c = 116 then
        if s1.take 4 = [116, 114, 117, 101] then (some (JValue.jbool true), s1.drop 4)
        else (none, s1)
      else if c = 102 then
        if s1.take 5 = [102, 97, 108, 115, 101] then (some (JValue.jbool false), s1.drop 5)
        else (none, s1)
      else if c = 110 then
        if s1.take 4 = [110, 117, 108, 108] then (none, s1.drop 4)
        else (none, s1)
      else if c = 45 ∨ isDigit c then BN.parseJsonNumber s1
      else (none, s1)

/-- `Java_com_blyfast_nativeopt_NativeOptimizer_nativeParseJson`
(blyfastnative.c:124-146): parse one top-level value from the front of
the buffer and return it.  The final cursor is discarded — nothing ever
looks at the bytes remaining after the value. -/
def BN.nativeParseJson (s : List Nat) : Option JValue :=
  (BN.parseJsonValue (s.length + 1) s).1

/-
  ===================================================================
  utils.c urlDecode and form_parser.c parseFormData  (namespace FP)
  ===================================================================
-/

/-- `urlDecode` from utils.c:64-108: `%XX` with two valid hex digits
(and at least two bytes after the `%`) becomes one byte, `+` becomes a
space, anything else (including a `%` whose digits are invalid or
missing) passes through literally.  The destination bound `len + 1`
never binds, since decoding never expands. -/
def urlDecode : List Nat → List Nat
  | [] => []
  | 37 :: a :: b :: t =>
    if 0 ≤ hexCharToInt a ∧ 0 ≤ hexCharToInt b then
      ((hexCharToInt a).toNat * 16 + (hexCharToInt b).toNat) :: urlDecode t
    else 37 :: urlDecode (a :: b :: t)
  | 43 :: t => 32 :: urlDecode t
  | c :: t => c :: urlDecode t

/-- A `u32` length field as the 4 bytes the C stores with
`*((int*)(result + resultPos)) = len` — native byte order, shown here
little-endian (the reference x86-64/AArch64 platforms). -/
def le32 (n : Nat) : List Nat :=
  [n % 256, n / 256 % 256, n / 65536 % 256, n / 16777216 % 256]

/-- Main loop of `parseFormData` (form_parser.c:34-77), one character
at a time with a virtual `&` appended.  `inValue` is `valueStart !=
-1`; `cur` holds the raw bytes of the current span.  At a `=` while
scanning a key the code writes `[keyLen][keyBytes]`; at a `&` (or the
virtual one) it writes `[valueLen][valueBytes]` — so the two length
fields are NOT adjacent, and a key never followed by `=` is dropped
entirely: only a zero-length value record is emitted for it. -/
def FP.formLoop : List Nat → Bool → List Nat → List Nat → List Nat
  | [], inValue, cur, out =>
    -- the virtual trailing '&'
    if inValue then out ++ le32 (urlDecode cur).length ++ urlDecode cur
    else out ++ le32 0
  | c :: t, false, cur, out =>
    if c = 61 then
      FP.formLoop t true [] (out ++ le32 (urlDecode cur).length ++ urlDecode cur)
    else if c = 38 then
      FP.formLoop t false [] (out ++ le32 0)
    else FP.formLoop t false (cur ++ [c]) out
  | c :: t, true, cur, out =>
    if c = 38 then
      FP.formLoop t false [] (out ++ le32 (urlDecode cur).length ++ urlDecode cur)
    else FP.formLoop t true (cur ++ [c]) out

/-- `parseFormData` from form_parser.c:6-88: `none` models the NULL
return on empty input; otherwise the flat result buffer handed back as
a direct ByteBuffer. -/
def FP.parseFormData (b : List Nat) : Option (List Nat) :=
  if b.length = 0 then none else some (FP.formLoop b false [] [])

/-
  ===================================================================
  http_headers.c + the shared registry globals from utils.c /
  blyfastnative.h  (namespace HH).  MAX_HEADERS = 1000,
  MAX_HEADER_NAME_LEN = 1024.
  ===================================================================
-/

/-- One parsed header: raw name bytes and raw value bytes. -/
abbrev HeaderEntry := List Nat × List Nat

/-- Trailing-whitespace trim applied to header names
(http_headers.c:100-103). -/
def HH.trimTrailingHws (l : List Nat) : List Nat :=
  (l.reverse.dropWhile isHws).reverse

/-- Skip the line terminator after a header line
(http_headers.c:141-143): at most one `\r`, then at most one `\n`. -/
def HH.lineBreakSkip : List Nat → List Nat
  | 13 :: 10 :: t => t
  | 13 :: t => t
  | 10 :: t => t
  | t => t

/-- The header-block line loop of `nativeParseHttpHeaders`
(http_headers.c:62-146), building the entry list by PREPENDING each
parsed header (`header->next = headers->first`).  A line with no colon
is skipped silently; the name gets its trailing spaces/tabs trimmed and
is truncated to `MAX_HEADER_NAME_LEN`; the value only has LEADING
spaces/tabs skipped.  Each iteration consumes at least one byte, so
fuel `length + 1` never runs out. -/
def HH.parseHeaderLoop : Nat → List Nat → List HeaderEntry → List HeaderEntry
  | 0, _, acc => acc
  | fuel + 1, s, acc =>
    match s with
    | [] => acc
    | _ =>
      let line := s.takeWhile fun c => ¬(c = 13 ∨ c = 10)
      let after := s.drop line.length
      if line.length = 0 then HH.parseHeaderLoop fuel (HH.lineBreakSkip after) acc
      else
        let name0 := line.takeWhile fun c => c ≠ 58
        if name0.length = line.length then
          HH.parseHeaderLoop fuel (HH.lineBreakSkip after) acc
        else
          let name := (HH.trimTrailingHws name0).take 1024
          let value := (line.drop (name0.length + 1)).dropWhile isHws
          HH.parseHeaderLoop fuel (HH.lineBreakSkip after) ((name, value) :: acc)

/-- The same line loop, but producing the entries in INPUT order.  Not
part of the source: it exists to state order properties, and is proved
below to be the reverse of what `parseHeaderLoop` builds. -/
def HH.parseHeaderLoopOrd : Nat → List Nat → List HeaderEntry
  | 0, _ => []
  | fuel + 1, s =>
    match s with
    | [] => []
    | _ =>
      let line := s.takeWhile fun c => ¬(c = 13 ∨ c = 10)
      let after := s.drop line.length
      if line.length = 0 then HH.parseHeaderLoopOrd fuel (HH.lineBreakSkip after)
      else
        let name0 := line.takeWhile fun c => c ≠ 58
        if name0.length = line.length then
          HH.parseHeaderLoopOrd fuel (HH.lineBreakSkip after)
        else
          let name := (HH.trimTrailingHws name0).take 1024
          let value := (line.drop (name0.length + 1)).dropWhile isHws
          (name, value) :: HH.parseHeaderLoopOrd fuel (HH.lineBreakSkip after)

/-- The entry list stored for a header block (most recent first, as the
C builds it). -/
def HH.parseHeaderEntries (b : List Nat) : List HeaderEntry :=
  HH.parseHeaderLoop (b.length + 1) b []

/-- The same entries in input order (statement helper, see
`parseHeaderLoopOrd`). -/
def HH.entriesInOrder (b : List Nat) : List HeaderEntry :=
  HH.parseHeaderLoopOrd (b.length + 1) b

/-- The registry globals from utils.c:4-12 (`headers_storage`,
`next_header_id`, `free_header_slots` + `free_header_count`).  The free
list is a stack; the head of `freeSlots` is its top
(`free_header_slots[free_header_count - 1]`). -/
structure RegState where
  storage : Nat → Option (List HeaderEntry)
  nextId : Nat
  freeSlots : List Nat

/-- The process-start state: all slots NULL, `next_header_id = 1`,
empty free list. -/
def HH.initState : RegState := ⟨fun _ => none, 1, []⟩

/-- The wrap-around scan of `nativeParseHttpHeaders`
(http_headers.c:39-42): `newId = 1; while (newId < MAX_HEADERS &&
headers_storage[newId] != NULL) newId++;`.  Fuel 1000 covers the at
most 999 increments. -/
def HH.findFreeSlot (storage : Nat → Option (List HeaderEntry)) : Nat → Nat → Nat
  | 0, i => i
  | fuel + 1, i =>
    if i < 1000 ∧ (storage i).isSome then HH.findFreeSlot storage fuel (i + 1) else i

/-- Slot allocation of `nativeParseHttpHeaders` (http_headers.c:28-54):
pop the free list if non-empty, else take `next_header_id++`, wrapping
into a linear scan once the counter reaches `MAX_HEADERS`; `none`
models the `return 0` when no slot is available.  `next_header_id` is
incremented even on the failing path (the C increments before the
bound check). -/
def HH.allocSlot (st : RegState) : Option Nat × RegState :=
  match st.freeSlots with
  | h :: t => (some h, { st with freeSlots := t })
  | [] =>
    let newId := st.nextId
    let st1 := { st with nextId := st.nextId + 1 }
    if newId ≥ 1000 then
      let slot := HH.findFreeSlot st.storage 1000 1
      if slot ≥ 1000 then (none, st1) else (some slot, st1)
    else (some newId, st1)

/-- `Java_com_blyfast_nativeopt_NativeOptimizer_nativeParseHttpHeaders`
(http_headers.c:6-148): reject empty input with 0, allocate a slot
(returning 0 when none is available), parse the block and store the
entry list in the slot.  Allocation failures inside the parse loop are
not modelled (the embedding's allocation always succeeds). -/
def HH.nativeParseHttpHeaders (st : RegState) (b : List Nat) : Nat × RegState :=
  if b.length = 0 then (0, st)
  else
    match HH.allocSlot st with
    | (none, st1) => (0, st1)
    | (some id, st1) =>
      (id, { st1 with storage := fun i => if i = id then some (HH.parseHeaderEntries b) else st1.storage i })

/-- `Java_com_blyfast_nativeopt_NativeOptimizer_nativeGetHeader`
(http_headers.c:153-199): reject ids outside `1..MAX_HEADERS-1` or
empty slots, then return the value of the FIRST entry of the stored
list whose name matches case-insensitively (the list is most recent
first).  `NewStringUTF` on the stored value stops at a NUL byte. -/
def HH.nativeGetHeader (st : RegState) (h : Nat) (name : List Nat) : Option (List Nat) :=
  if h = 0 ∨ 1000 ≤ h then none
  else
    match st.storage h with
    | none => none
    | some entries => (entries.find? fun e => nameEqCI e.1 name).map fun e => cstr e.2

/-- `Java_com_blyfast_nativeopt_NativeOptimizer_nativeFreeHeaders`
(http_headers.c:204-232): reject invalid ids and empty slots, clear the
slot, and push the id on the free list if it has room. -/
def HH.nativeFreeHeaders (st : RegState) (h : Nat) : RegState :=
  if h = 0 ∨ 1000 ≤ h then st
  else
    match st.storage h with
    | none => st
    | some _ =>
      let st1 : RegState := { st with storage := fun i => if i = h then none else st.storage i }
      if st1.freeSlots.length < 1000 then { st1 with freeSlots := h :: st1.freeSlots }
      else st1

/-- Number of live (registered and unreleased) entries in a registry
state. -/
def HH.liveCount (st : RegState) : Nat :=
  ((List.range 1000).filter fun i => (st.storage i).isSome).length

/-- A registry state in which every usable slot (ids 1..999) is
occupied, the free list is empty, and the counter has reached
`MAX_HEADERS`: the smallest state from which allocation must fail. -/
def HH.fullState : RegState :=
  ⟨fun i => if 1 ≤ i ∧ i ≤ 999 then some [] else none, 1000, []⟩

/-
  ===================================================================
  Helper lemmas and claim theorems
  ===================================================================
-/
set_option maxRecDepth 100000

/-- C1 (counterexample): parsing `{"a":1,"b":[1,2,3]} extra` through
the JNI entry point `nativeParseJson` does NOT fail — the claim says it
must fail with `TrailingData`, but the function returns a non-null
value. -/
theorem c1_counterexample :
    (BN.nativeParseJson (ascii "\x7b\"a\":1,\"b\":[1,2,3]\x7d extra")).isSome = true := rfl

/-- C1 (amended): `nativeParseJson` performs no trailing-data check at
all: it returns whatever `parseJsonValue` extracted from the front of
the buffer and ignores every remaining byte.  On
`{"a":1,"b":[1,2,3]} extra` it succeeds and returns a two-entry map —
whose keys, because the fast-path string copy `NewStringUTF(env,
start)` runs to the end of the NUL-terminated input buffer, extend from
after the opening quote all the way to the end of the input. -/
theorem c1_trailing_ignored :
    BN.nativeParseJson (ascii "\x7b\"a\":1,\"b\":[1,2,3]\x7d extra") =
      some (JValue.jobj
        [(ascii "a\":1,\"b\":[1,2,3]\x7d extra", some (JValue.jint 1)),
         (ascii "b\":[1,2,3]\x7d extra",
          some (JValue.jarr
            [some (JValue.jint 1), some (JValue.jint 2), some (JValue.jint 3)]))]) := rfl

/-- C2 (code bug): in json_parser.c's `parseJsonString`, a valid
surrogate pair `😀` is decoded to the correct 4 UTF-8 bytes,
but the cursor is advanced 12 bytes past the `'u'` instead of 11 (the
`break` after `*cursor += 11` leaves only the `switch`, so the loop's
`(*cursor)++` still runs), consuming the byte immediately after the
second escape.  Hence the document `"😀"` FAILS to parse (the
closing quote is swallowed and the string is unterminated), and in
`"😀 "` the space after the pair is silently dropped. -/
theorem c2_surrogate_cursor_bug :
    (JP.parseJson (ascii "\"\\ud83d\\ude00\"")).1 = none ∧
    JP.parseJson (ascii "\"\\ud83d\\ude00 \"") =
      (some (JValue.jstr [240, 159, 152, 128]), []) := ⟨rfl, rfl⟩

/-- C3 (code bug): `parseFormData("a=1&b=2&c")` does not produce three
complete `[keyLen][valueLen][keyBytes][valueBytes]` records.  The code
writes `[keyLen][keyBytes]` when it meets `=` and `[valueLen]
[valueBytes]` when it meets `&`, so the two length fields are
interleaved with the data (contradicting the layout stated in the
code's own comment), and for the trailing key `c` — which has no `=` —
only a zero-length value record is written: the bytes of `c` never
appear in the output at all. -/
theorem c3_form_wire_bug :
    FP.parseFormData (ascii "a=1&b=2&c") =
      some (le32 1 ++ ascii "a" ++ le32 1 ++ ascii "1" ++
            le32 1 ++ ascii "b" ++ le32 1 ++ ascii "2" ++ le32 0) := rfl

/-- C6 (counterexample): `[1,]` is NOT rejected — the claim says a `,`
followed by `]` must be an error, but the parse succeeds. -/
theorem c6_counterexample : (JP.parseJson (ascii "[1,]")).1.isSome = true := rfl

/-- C6 (amended): after a `,` the array loop does not require an
element: the element position parses as the NULL jobject
(indistinguishable from JSON null), which is appended to the list, and
the following `]` closes the array — so `[1,]` parses successfully as
the two-element array `[1, null]`.  A closing delimiter immediately
after `[` still gives the empty array. -/
theorem c6_comma_bracket_accepted :
    JP.parseJson (ascii "[1,]") = (some (JValue.jarr [some (JValue.jint 1), none]), []) ∧
    JP.parseJson (ascii "[]") = (some (JValue.jarr []), []) := ⟨rfl, rfl⟩

/-- C9: at the JNI surface, `nativeParseJson` returns the NULL jobject
both for the valid document `null` and for a malformed document such as
`@` — the two results are equal, so a caller cannot distinguish a
top-level JSON null from a parse error. -/
theorem c9_null_indistinguishable :
    BN.nativeParseJson (ascii "null") = BN.nativeParseJson (ascii "@") ∧
    BN.nativeParseJson (ascii "null") = none := ⟨rfl, rfl⟩

/-- The wrap-around scan never moves backwards. -/
theorem HH.le_findFreeSlot (storage : Nat → Option (List HeaderEntry)) :
    ∀ fuel i, i ≤ HH.findFreeSlot storage fuel i := by
  intro fuel
  induction fuel with
  | zero => intro i; exact Nat.le_refl i
  | succ n ih =>
    intro i
    unfold HH.findFreeSlot
    split
    · exact Nat.le_trans (Nat.le_succ i) (ih (i + 1))
    · exact Nat.le_refl i

/-- If the wrap-around scan runs off the end of the table (with enough
fuel to cover it), every slot from its start to 999 is occupied. -/
theorem HH.findFreeSlot_full (storage : Nat → Option (List HeaderEntry)) :
    ∀ fuel i, 1000 - i ≤ fuel → 1000 ≤ HH.findFreeSlot storage fuel i →
      ∀ k, i ≤ k → k < 1000 → (storage k).isSome := by
  intro fuel
  induction fuel with
  | zero => intro i hfi _ k hik hk; omega
  | succ n ih =>
    intro i hfi hres k hik hk
    unfold HH.findFreeSlot at hres
    by_cases hc : i < 1000 ∧ (storage i).isSome
    · rw [if_pos hc] at hres
      rcases Nat.eq_or_lt_of_le hik with h | h
      · exact h ▸ hc.2
      · exact ih (i + 1) (by omega) hres k h hk
    · rw [if_neg hc] at hres
      omega

/-- C5 (amended): the registry's usable slots are ids 1..999 — 999 of
them, not 1000 (slot 0 is reserved because 0 is the failure sentinel).
Whenever `nativeParseHttpHeaders` returns 0 for a non-empty block (in
any state reachable from start-up: free-list entries are never 0 and
the counter is at least 1), every one of the 999 usable slots holds a
live, unreleased HeaderSet. -/
theorem c5_register_zero_only_when_full (st : RegState) (b : List Nat)
    (hb : b.length ≠ 0) (hfree : ∀ j ∈ st.freeSlots, j ≠ 0)
    (hnext : 1 ≤ st.nextId)
    (h0 : (HH.nativeParseHttpHeaders st b).1 = 0) :
    ∀ i, 1 ≤ i → i < 1000 → (st.storage i).isSome := by
  intro i hi1 hi2
  unfold HH.nativeParseHttpHeaders at h0
  rw [if_neg hb] at h0
  unfold HH.allocSlot at h0
  rcases hfs : st.freeSlots with _ | ⟨j, t⟩
  · rw [hfs] at h0
    simp only at h0
    by_cases hge : st.nextId ≥ 1000
    · rw [if_pos hge] at h0
      by_cases hslot : HH.findFreeSlot st.storage 1000 1 ≥ 1000
      · exact HH.findFreeSlot_full st.storage 1000 1 (by omega) hslot i hi1 hi2
      · rw [if_neg hslot] at h0
        simp only at h0
        have := HH.le_findFreeSlot st.storage 1000 1
        omega
    · rw [if_neg hge] at h0
      simp only at h0
      omega
  · rw [hfs] at h0
    simp only at h0
    exact absurd h0 (hfree j (hfs ▸ List.mem_cons_self j t))

/-- C5 (counterexample): in the state where exactly the 999 usable
slots are occupied — 999 live HeaderSets, not 1000 — registration
already fails with the 0 sentinel, refuting "only when 1000 HeaderSets
are currently registered". -/
theorem c5_counterexample :
    (HH.nativeParseHttpHeaders HH.fullState (ascii "A: b")).1 = 0 ∧
    HH.liveCount HH.fullState = 999 := ⟨rfl, by decide⟩

/-- Witness for C5: the amended theorem applied to the concrete full
state, concrete block `A: b` and concrete slot 500. -/
theorem c5_witness :
    ((ascii "A: b").length ≠ 0 ∧ (∀ j ∈ HH.fullState.freeSlots, j ≠ 0) ∧
      1 ≤ HH.fullState.nextId ∧
      (HH.nativeParseHttpHeaders HH.fullState (ascii "A: b")).1 = 0) ∧
    (HH.fullState.storage 500).isSome :=
  ⟨⟨by decide, by intro j hj; simp [HH.fullState] at hj, by decide, rfl⟩,
   c5_register_zero_only_when_full HH.fullState (ascii "A: b") (by decide)
     (by intro j hj; simp [HH.fullState] at hj) (by decide) rfl 500 (by omega) (by omega)⟩

/-- C7: releasing a live handle `k` makes every subsequent lookup on
`k` (for any name) answer "handle not found" (`none`), and the very
next registration pops `k` off the free list and returns the same
handle value — slot reuse.  The hypotheses say `k` is a live handle
(as every handle returned by `nativeParseHttpHeaders` is) and the free
list has room, which it always has (it can never exceed 999 pushed
slots). -/
theorem c7_release_lookup_register (st : RegState) (k : Nat) (es : List HeaderEntry)
    (hk0 : 0 < k) (hk1 : k < 1000) (hst : st.storage k = some es)
    (hroom : st.freeSlots.length < 1000) :
    (∀ name, HH.nativeGetHeader (HH.nativeFreeHeaders st k) k name = none) ∧
    ∀ b, b.length ≠ 0 → (HH.nativeParseHttpHeaders (HH.nativeFreeHeaders st k) b).1 = k := by
  have hcond : ¬(k = 0 ∨ 1000 ≤ k) := by omega
  have hfreeEq : HH.nativeFreeHeaders st k =
      { st with storage := fun i => if i = k then none else st.storage i,
                freeSlots := k :: st.freeSlots } := by
    unfold HH.nativeFreeHeaders
    rw [if_neg hcond, hst]
    simp only
    rw [if_pos hroom]
  constructor
  · intro name
    rw [hfreeEq]
    unfold HH.nativeGetHeader
    rw [if_neg hcond]
    simp
  · intro b hb
    rw [hfreeEq]
    unfold HH.nativeParseHttpHeaders HH.allocSlot
    rw [if_neg hb]

/-- A concrete registry state holding exactly one live HeaderSet, at
handle 1. -/
def HH.oneState : RegState := ⟨fun i => if i = 1 then some [] else none, 2, []⟩

/-- Witness for C7: a concrete one-entry registry, handle 1, lookup
name `x`, follow-up registration of the concrete block `A: b`. -/
theorem c7_witness :
    (0 < 1 ∧ 1 < 1000 ∧ HH.oneState.storage 1 = some [] ∧
      HH.oneState.freeSlots.length < 1000) ∧
    HH.nativeGetHeader (HH.nativeFreeHeaders HH.oneState 1) 1 (ascii "x") = none ∧
    (HH.nativeParseHttpHeaders (HH.nativeFreeHeaders HH.oneState 1) (ascii "A: b")).1 = 1 :=
  ⟨⟨by omega, by omega, rfl, by decide⟩,
   (c7_release_lookup_register HH.oneState 1 [] (by omega) (by omega) rfl (by decide)).1
     (ascii "x"),
   (c7_release_lookup_register HH.oneState 1 [] (by omega) (by omega) rfl (by decide)).2
     (ascii "A: b") (by decide)⟩

/-- The head of `dropWhile p` never satisfies `p`. -/
theorem head_dropWhile_not (p : Nat → Bool) :
    ∀ (l : List Nat) (c : Nat), (l.dropWhile p).head? = some c → p c = false := by
  intro l
  induction l with
  | nil => intro c h; simp [List.dropWhile] at h
  | cons a t ih =>
    intro c h
    rw [List.dropWhile_cons] at h
    by_cases hp : p a
    · rw [if_pos hp] at h
      exact ih c h
    · rw [if_neg hp] at h
      simp only [List.head?_cons, Option.some.injEq] at h
      subst h
      exact Bool.not_eq_true _ ▸ hp

/-- Entries produced by the header-block line loop either come from the
accumulator or have a value with no leading space or tab. -/
theorem HH.parseHeaderLoop_value_head :
    ∀ (fuel : Nat) (s : List Nat) (acc : List HeaderEntry) (nm v : List Nat),
      (nm, v) ∈ HH.parseHeaderLoop fuel s acc →
      (nm, v) ∈ acc ∨ ∀ c, v.head? = some c → isHws c = false := by
  intro fuel
  induction fuel with
  | zero => intro s acc nm v h; exact Or.inl h
  | succ n ih =>
    intro s acc nm v h
    unfold HH.parseHeaderLoop at h
    rcases s with _ | ⟨a, t⟩
    · exact Or.inl h
    · simp only at h
      split at h
      · exact ih _ _ _ _ h
      · split at h
        · exact ih _ _ _ _ h
        · rcases ih _ _ _ _ h with hmem | hok
          · rcases List.mem_cons.mp hmem with heq | hacc
            · right
              intro c hc
              have hv :
                  v = (((a :: t).takeWhile fun c => ¬(c = 13 ∨ c = 10)).drop
                    ((((a :: t).takeWhile fun c => ¬(c = 13 ∨ c = 10)).takeWhile
                      fun c => c ≠ 58).length + 1)).dropWhile isHws :=
                congrArg Prod.snd heq
              rw [hv] at hc
              exact head_dropWhile_not isHws _ c hc
            · exact Or.inl hacc
          · exact Or.inr hok

/-- C4 (amended): header values are trimmed of LEADING horizontal
whitespace only — every stored value begins with a non-space, non-tab
byte (it is the header names, not the values, that get a trailing
trim; see the counterexample for a value that keeps its trailing
spaces). -/
theorem c4_leading_trim_only (b nm v : List Nat)
    (hmem : (nm, v) ∈ HH.parseHeaderEntries b) :
    ∀ c, v.head? = some c → isHws c = false := by
  rcases HH.parseHeaderLoop_value_head (b.length + 1) b [] nm v hmem with h | h
  · simp at h
  · exact h

/-- Witness for C4: the concrete line `X:   hi` stores the entry
`("X", "hi")`, whose value starts with `h` — not whitespace. -/
theorem c4_witness :
    (ascii "X", ascii "hi") ∈ HH.parseHeaderEntries (ascii "X:   hi") ∧
    isHws 104 = false :=
  ⟨by decide, c4_leading_trim_only (ascii "X:   hi") (ascii "X") (ascii "hi") (by decide) 104 rfl⟩

/-- C4 (counterexample): the claim says values are trimmed of trailing
whitespace too, but the line `Name:  value  ` stores the value
`"value  "`, which still ends in a space (byte 32). -/
theorem c4_counterexample :
    HH.parseHeaderEntries (ascii "Name:  value  ") = [(ascii "Name", ascii "value  ")] ∧
    (ascii "value  ").getLast? = some 32 := ⟨rfl, rfl⟩

/-- `find?` over a reversed list is the last match of the original
list. -/
theorem find?_reverse_eq_getLast?_filter {α : Type} (p : α → Bool) (l : List α) :
    l.reverse.find? p = (l.filter p).getLast? := by
  calc l.reverse.find? p = (l.reverse.filter p).head? := (List.filter_head? p l.reverse).symm
    _ = ((l.filter p).reverse).head? := by rw [List.filter_reverse]
    _ = (l.filter p).getLast? := List.head?_reverse _

/-- The header line loop builds exactly the reverse of the input-order
entry list (each parsed header is prepended). -/
theorem HH.parseHeaderLoop_eq_ord :
    ∀ (fuel : Nat) (s : List Nat) (acc : List HeaderEntry),
      HH.parseHeaderLoop fuel s acc = (HH.parseHeaderLoopOrd fuel s).reverse ++ acc := by
  intro fuel
  induction fuel with
  | zero => intro s acc; rfl
  | succ n ih =>
    intro s acc
    unfold HH.parseHeaderLoop HH.parseHeaderLoopOrd
    rcases s with _ | ⟨a, t⟩
    · rfl
    · simp only
      split
      · exact ih _ _
      · split
        · exact ih _ _
        · rw [ih]
          simp

/-- C10: looking up a header on the handle produced by registering a
parsed block returns the value of the LAST matching occurrence in
input order (entries are prepended while parsing and lookup takes the
first list match), for every block and every queried name. -/
theorem c10_last_occurrence_wins (b n : List Nat) :
    HH.nativeGetHeader (HH.nativeParseHttpHeaders HH.initState b).2
        (HH.nativeParseHttpHeaders HH.initState b).1 n =
      (((HH.entriesInOrder b).filter fun e => nameEqCI e.1 n).getLast?).map
        fun e => cstr e.2 := by
  by_cases hb : b.length = 0
  · have hbnil : b = [] := List.length_eq_zero.mp hb
    subst hbnil
    rfl
  · have hreg : HH.nativeParseHttpHeaders HH.initState b =
        (1, ⟨fun i => if i = 1 then some (HH.parseHeaderEntries b) else none, 2, []⟩) := by
      unfold HH.nativeParseHttpHeaders
      rw [if_neg hb]
      rfl
    rw [hreg]
    show ((HH.parseHeaderEntries b).find? fun e => nameEqCI e.1 n).map (fun e => cstr e.2) = _
    unfold HH.parseHeaderEntries HH.entriesInOrder
    rw [HH.parseHeaderLoop_eq_ord, List.append_nil, find?_reverse_eq_getLast?_filter]

/-- `numSign` splits its input and only ever consumes a `-`. -/
theorem numSign_spec (s : List Nat) :
    s = (numSign s).1 ++ (numSign s).2 ∧ ∀ c ∈ (numSign s).1, c = 45 := by
  unfold numSign
  split
  · constructor
    · simp_all
    · intro c hc; simp at hc; exact hc
  · simp

/-- `expSign` splits its input and only ever consumes a `+` or a
`-`. -/
theorem expSign_spec (t : List Nat) :
    t = (expSign t).1 ++ (expSign t).2 ∧ ∀ c ∈ (expSign t).1, c = 43 ∨ c = 45 := by
  unfold expSign
  split
  · constructor
    · simp_all
    · intro c hc; simp at hc; omega
  · constructor
    · simp_all
    · intro c hc; simp at hc; omega
  · simp

/-- A digit byte is not `.`, `e` or `E`. -/
theorem isDigit_not_marker {c : Nat} (h : isDigit c = true) :
    ¬(c = 46 ∨ c = 101 ∨ c = 69) := by
  simp [isDigit] at h
  omega

/-- When `jsonNumFinish` succeeds, the rest is unchanged and the result
is Float exactly when the floating-point flag was set. -/
theorem JP.jsonNumFinish_some {lit : List Nat} {isFP : Bool} {rest rest' : List Nat}
    {v : JValue} (h : JP.jsonNumFinish lit isFP rest = (some v, rest')) :
    rest' = rest ∧ ((∃ q, v = JValue.jfloat q) ↔ isFP = true) := by
  unfold JP.jsonNumFinish at h
  split at h
  · simp at h
  · rw [Prod.ext_iff] at h
    simp only at h
    rcases h with ⟨hv, hr⟩
    have hv' : v = if isFP then JValue.jfloat (strtodRat lit) else JValue.jint (strtollDec lit) :=
      (Option.some.injEq _ _ ▸ hv).symm
    subst hv'
    refine ⟨hr.symm, ?_⟩
    cases isFP with
    | true => simp
    | false =>
      simp only [if_neg Bool.false_ne_true]
      constructor
      · rintro ⟨q, hq⟩; exact absurd hq (by simp)
      · intro hcontra; exact absurd hcontra (by simp)

/-- When `jsonNumExp` succeeds it consumed some exponent bytes `ext`
(possibly none), none of which is a `.`, and the result is Float
exactly when the flag was already set or `ext` begins with an
`e`/`E`. -/
theorem JP.jsonNumExp_spec {lit : List Nat} {isFP : Bool} {s rest : List Nat} {v : JValue}
    (h : JP.jsonNumExp lit isFP s = (some v, rest)) :
    ∃ ext, s = ext ++ rest ∧ (∀ c ∈ ext, ¬(c = 46)) ∧
      ((∃ q, v = JValue.jfloat q) ↔ (isFP = true ∨ ∃ c ∈ ext, c = 101 ∨ c = 69)) := by
  unfold JP.jsonNumExp at h
  rcases s with _ | ⟨c, t⟩
  · rcases JP.jsonNumFinish_some h with ⟨hr, hiff⟩
    refine ⟨[], by simp [hr], by simp, ?_⟩
    rw [hiff]
    simp
  · simp only at h
    split at h
    · rename_i hc
      split at h
      · simp at h
      · rename_i heds
        rcases JP.jsonNumFinish_some h with ⟨hr, hiff⟩
        refine ⟨c :: ((expSign t).1 ++ (expSign t).2.takeWhile isDigit), ?_, ?_, ?_⟩
        · subst hr
          have h1 := (expSign_spec t).1
          have h2 := List.takeWhile_append_dropWhile isDigit (expSign t).2
          calc c :: t = c :: ((expSign t).1 ++ (expSign t).2) := by rw [← h1]
            _ = c :: ((expSign t).1 ++ ((expSign t).2.takeWhile isDigit ++
                  (expSign t).2.dropWhile isDigit)) := by rw [h2]
            _ = (c :: ((expSign t).1 ++ (expSign t).2.takeWhile isDigit)) ++
                  (expSign t).2.dropWhile isDigit := by simp
        · intro d hd
          rcases List.mem_cons.mp hd with hdc | hdm
          · omega
          · rcases List.mem_append.mp hdm with hds | hdd
            · rcases (expSign_spec t).2 d hds with h45 | h43 <;> omega
            · have := List.mem_takeWhile_imp hdd
              simp [isDigit] at this
              omega
        · exact ⟨fun _ => Or.inr ⟨c, List.mem_cons_self _ _, hc⟩, fun _ => hiff.mpr rfl⟩
    · rcases JP.jsonNumFinish_some h with ⟨hr, hiff⟩
      refine ⟨[], by simp [hr], by simp, ?_⟩
      rw [hiff]
      simp

/-- C8: json_parser.c classifies a numeric literal as Float exactly
when the consumed literal contains a `.` or an exponent marker
`e`/`E`, never based on magnitude; concretely `123` parses to
Integer 123 and `123.0` parses to Float 123.0 (the exact rational
value of the literal, here the integer 123). -/
theorem c8_number_classification :
    (∀ s v rest, JP.parseJsonNumber s = (some v, rest) →
      ∃ lit, s = lit ++ rest ∧
        ((∃ q, v = JValue.jfloat q) ↔ ∃ c ∈ lit, c = 46 ∨ c = 101 ∨ c = 69)) ∧
    JP.parseJson (ascii "123") = (some (JValue.jint 123), []) ∧
    JP.parseJson (ascii "123.0") = (some (JValue.jfloat (strtodRat (ascii "123.0"))), []) ∧
    strtodRat (ascii "123.0") = 123 := by
  refine ⟨?_, rfl, rfl, by decide⟩
  intro s v rest h
  simp only [JP.parseJsonNumber] at h
  rcases hns : numSign s with ⟨sg, s1⟩
  rw [hns] at h
  dsimp only at h
  have hs_split : s = sg ++ s1 := by
    have := (numSign_spec s).1
    rw [hns] at this
    exact this
  have hs_sign : ∀ c ∈ sg, c = 45 := by
    have := (numSign_spec s).2
    rw [hns] at this
    exact this
  split at h
  · simp at h
  · split at h
    · rename_i t heq
      split at h
      · simp at h
      · obtain ⟨ext, hext, hext46, hiff⟩ := JP.jsonNumExp_spec h
        have e2 : s1 = s1.takeWhile isDigit ++ (46 :: t) := by
          have e := (List.takeWhile_append_dropWhile isDigit s1).symm
          rw [heq] at e
          exact e
        have e3 : t = t.takeWhile isDigit ++ (ext ++ rest) := by
          have e := (List.takeWhile_append_dropWhile isDigit t).symm
          rw [hext] at e
          exact e
        refine ⟨sg ++ (s1.takeWhile isDigit ++ 46 :: (t.takeWhile isDigit ++ ext)), ?_, ?_⟩
        · calc s = sg ++ s1 := hs_split
            _ = sg ++ (s1.takeWhile isDigit ++ (46 :: t)) := congrArg (fun x => sg ++ x) e2
            _ = sg ++ (s1.takeWhile isDigit ++
                  (46 :: (t.takeWhile isDigit ++ (ext ++ rest)))) :=
              congrArg (fun x => sg ++ (s1.takeWhile isDigit ++ (46 :: x))) e3
            _ = (sg ++ (s1.takeWhile isDigit ++ 46 :: (t.takeWhile isDigit ++ ext))) ++ rest := by
              simp [List.append_assoc]
        · exact iff_of_true (hiff.mpr (Or.inl rfl))
            ⟨46, by simp, Or.inl rfl⟩
    · obtain ⟨ext, hext, hext46, hiff⟩ := JP.jsonNumExp_spec h
      have e2 : s1 = s1.takeWhile isDigit ++ (ext ++ rest) := by
        have e := (List.takeWhile_append_dropWhile isDigit s1).symm
        rw [hext] at e
        exact e
      refine ⟨sg ++ (s1.takeWhile isDigit ++ ext), ?_, ?_⟩
      · calc s = sg ++ s1 := hs_split
          _ = sg ++ (s1.takeWhile isDigit ++ (ext ++ rest)) := congrArg (fun x => sg ++ x) e2
          _ = (sg ++ (s1.takeWhile isDigit ++ ext)) ++ rest := by simp [List.append_assoc]
      · constructor
        · intro hf
          rcases hiff.mp hf with hfalse | ⟨c, hc, hcm⟩
          · exact absurd hfalse (by simp)
          · exact ⟨c, List.mem_append.mpr (Or.inr (List.mem_append.mpr (Or.inr hc))),
              Or.inr hcm⟩
        · rintro ⟨c, hcl, hcm⟩
          rcases List.mem_append.mp hcl with hsg | htwext
          · have := hs_sign c hsg
            omega
          · rcases List.mem_append.mp htwext with htw | hcext
            · exact absurd hcm (isDigit_not_marker (List.mem_takeWhile_imp htw))
            · have hc46 := hext46 c hcext
              have : c = 101 ∨ c = 69 := by omega
              exact hiff.mpr (Or.inr ⟨c, hcext, this⟩)

/-- Witness for C8: the general classification applied at the concrete
literal `1e2`, which parses as Float because of its exponent marker. -/
theorem c8_witness :
    ∃ lit, ascii "1e2" = lit ++ [] ∧
      ((∃ q, JValue.jfloat (strtodRat (ascii "1e2")) = JValue.jfloat q) ↔
        ∃ c ∈ lit, c = 46 ∨ c = 101 ∨ c = 69) :=
  c8_number_classification.1 (ascii "1e2") (JValue.jfloat (strtodRat (ascii "1e2"))) [] rfl
